import Mathlib

/-!
Verification of the Sandboxels engine specification against a shallow
embedding of the engine surface declared in `src/globals.d.ts`.

The repository ships only the TypeScript declaration file (types and doc
comments); the engine behind the surface is reconstructed by the
specification.  Accordingly, every operational definition below is
modelled from the spec (and from the doc comments in `globals.d.ts`
where those pin down behaviour), as noted in each doc string.

Conventions of the embedding:
* JavaScript numbers used as coordinates are modelled as `Int`
  (coordinates may be negative and out of bounds); scalar quantities
  (temperature, charge, conduct) are modelled as `ℚ`, which is always
  finite.
* JavaScript object identity of a `Pixel` is modelled by an explicit
  `id : Nat` field.
* Thrown `TypeError`s and other failures are modelled with
  `Except GridError`.
* The open-ended mod-attribute bag (`[key: string]: unknown`) and
  native-function callbacks are outside the shallow embedding and are
  omitted; all declared scalar fields of `Pixel` are kept.
-/

namespace Sandboxels

/-- Pixel entity, following the `Pixel` interface of `globals.d.ts`
(fields `x`, `y`, `element`, `color`, `alpha`, `temp`, `start`,
`burning`, `burnStart`, `charge`, `flipX`, `flipY`, `r`).  The extra
`id` field models JavaScript reference identity of the pixel object. -/
structure Pixel where
  id : Nat
  x : Int
  y : Int
  element : String
  color : String
  alpha : Option ℚ := none
  temp : ℚ := 0
  start : Nat := 0
  burning : Bool := false
  burnStart : Option Nat := none
  charge : Option ℚ := none
  flipX : Bool := false
  flipY : Bool := false
  r : Nat := 0
deriving DecidableEq

/-- Reaction descriptor, following the `ElementReaction` interface of
`globals.d.ts`.  Per spec section 3, `elem1`/`elem2` are the match
predicate's candidate element names for each side; `tempMin`/`tempMax`,
`charged`, `burning1`/`burning2` and `chance` are further predicate
fields (section 4.3), and `color1`/`color2`, `temp1`/`temp2`,
`charge1`/`charge2`, `stain1`/`stain2` are the declarative effects.
The native callback field `func` and the open attribute predicates are
outside the shallow embedding and omitted. -/
structure ElementReaction where
  elem1 : Option (List String) := none
  elem2 : Option (List String) := none
  color1 : Option String := none
  color2 : Option String := none
  chance : Option ℚ := none
  temp1 : Option ℚ := none
  temp2 : Option ℚ := none
  tempMin : Option ℚ := none
  tempMax : Option ℚ := none
  oneway : Bool := false
  charged : Option Bool := none
  burning1 : Option Bool := none
  burning2 : Option Bool := none
  charge1 : Option ℚ := none
  charge2 : Option ℚ := none
  stain1 : Option String := none
  stain2 : Option String := none
deriving DecidableEq

/-- Element definition, following the `GameElement` interface of
`globals.d.ts` (restricted to the fields the verified claims touch:
category, color, default temperature, thermal thresholds and state
targets, conduct/insulate/superconduct parameters, density, movable,
and the reaction table).  Per spec section 3 the reaction table maps a
paired element name to a reaction-descriptor list evaluated in
declaration order. -/
structure GameElement where
  name : String := ""
  category : String := ""
  color : String := ""
  temp : ℚ := 20
  tempHigh : Option ℚ := none
  stateHigh : Option String := none
  tempLow : Option ℚ := none
  stateLow : Option String := none
  conduct : ℚ := 0
  insulate : Bool := false
  superconductAt : Option ℚ := none
  density : ℚ := 0
  movable : Bool := true
  reactions : List (String × List ElementReaction) := []
deriving DecidableEq

/-- The element registry (`elements` in `globals.d.ts`): a static map
from element name to element definition. -/
def Registry : Type := String → Option GameElement

/-- The Grid Store.  Modelled from the spec: a fixed-size `W × H` array
of `Pixel | empty` (`pixelMap` in `globals.d.ts`), here as a cell
function over `Int` coordinates, together with the dimensions and an
identity counter `nextId` modelling the allocator of fresh pixel
objects. -/
structure Grid where
  W : Nat
  H : Nat
  cells : Int → Int → Option Pixel
  nextId : Nat

/-- Checks if coordinates are out of bounds (`outOfBounds` in
`globals.d.ts`): true iff `(x, y)` lies outside `[0, W) × [0, H)`. -/
def outOfBounds (g : Grid) (x y : Int) : Bool :=
  decide (x < 0) || decide ((g.W : Int) ≤ x) || decide (y < 0) || decide ((g.H : Int) ≤ y)

/-- Writes one cell of the Grid Store, leaving all other cells
unchanged. -/
def setCell (g : Grid) (x y : Int) (v : Option Pixel) : Grid :=
  { g with cells := fun a b => if a = x ∧ b = y then v else g.cells a b }

/-- Rewrites the pixel in one cell (if occupied) in place, leaving all
other cells unchanged. -/
def modifyCell (g : Grid) (x y : Int) (f : Pixel → Pixel) : Grid :=
  { g with cells := fun a b => if a = x ∧ b = y then (g.cells a b).map f else g.cells a b }

/-- Error taxonomy of spec section 7: `outOfBounds` models the thrown
`TypeError` / distinct OutOfBounds condition, `unknownElement` a name
missing from the registry, `occupied` an occupied mutation target. -/
inductive GridError where
  | outOfBounds
  | unknownElement
  | occupied
deriving DecidableEq

/-- Modelled from the spec: `get(x,y)` of the Grid Store "fails
distinctly if out of bounds vs. returns empty-marker if in bounds and
unoccupied" (spec section 4.1; `getPixel` in `globals.d.ts`). -/
def getPixel (g : Grid) (x y : Int) : Except GridError (Option Pixel) :=
  if outOfBounds g x y then .error .outOfBounds else .ok (g.cells x y)

/-- Modelled from the spec: `createPixel` places a fresh pixel of the
given element at `(x, y)` at creation tick `t`; it throws (TypeError)
on out-of-bounds coordinates (`@throws` in `globals.d.ts`), fails on an
unknown element name (spec section 7), and requires an empty cell.  The
new pixel takes the element's base color and default temperature and a
fresh identity. -/
def createPixel (E : Registry) (g : Grid) (element : String) (x y : Int) (t : Nat) :
    Except GridError Grid :=
  if outOfBounds g x y then .error .outOfBounds
  else match E element with
    | none => .error .unknownElement
    | some e =>
      if (g.cells x y).isSome then .error .occupied
      else .ok { setCell g x y (some
        { id := g.nextId, x := x, y := y, element := element,
          color := e.color, temp := e.temp, start := t }) with
        nextId := g.nextId + 1 }

/-- Deletes the pixel at `(x, y)` (`deletePixel` in `globals.d.ts`). -/
def deletePixel (g : Grid) (x y : Int) : Grid :=
  setCell g x y none

/-- Modelled from the spec: `movePixel` moves a pixel to `(x, y)`,
throwing (TypeError) when the target is out of bounds (`@throws` in
`globals.d.ts`); an occupied target fails as `occupied`.  On success
the source cell is emptied and the pixel is stored at the target with
its position fields updated. -/
def movePixel (g : Grid) (p : Pixel) (nx ny : Int) : Except GridError Grid :=
  if outOfBounds g nx ny then .error .outOfBounds
  else if (g.cells nx ny).isSome then .error .occupied
  else .ok (setCell (setCell g p.x p.y none) nx ny (some { p with x := nx, y := ny }))

/-- Modelled from the spec: `clonePixel` creates a copy of `pixel` at
`(x, y)` with a fresh identity, throwing (TypeError) when the target is
out of bounds (`@throws` in `globals.d.ts`); an occupied target is a
no-op skip, not an error (spec section 7, OccupiedTarget). -/
def clonePixel (g : Grid) (p : Pixel) (nx ny : Int) : Except GridError Grid :=
  if outOfBounds g nx ny then .error .outOfBounds
  else if (g.cells nx ny).isSome then .ok g
  else .ok { setCell g nx ny (some { p with x := nx, y := ny, id := g.nextId }) with
    nextId := g.nextId + 1 }

/-- Swaps two pixels' cells (`swapPixels` in `globals.d.ts`), updating
each pixel's position fields to its new slot. -/
def swapPixels (g : Grid) (p1 p2 : Pixel) : Grid :=
  setCell (setCell g p1.x p1.y (some { p2 with x := p1.x, y := p1.y }))
    p2.x p2.y (some { p1 with x := p2.x, y := p2.y })

/-- Returns whether `(x, y)` is empty, following the doc comment of
`isEmpty` in `globals.d.ts`: "If oob is true or the pixel is out of
bounds it will return true if ignoreBounds is true.  Otherwise it will
return false", and in the remaining case it reports whether the cell is
unoccupied. -/
def isEmpty (g : Grid) (x y : Int) (ignoreBounds oob : Bool) : Bool :=
  if oob || outOfBounds g x y then ignoreBounds
  else (g.cells x y).isNone

/-- True iff the given `Except` result is the distinct OutOfBounds
failure. -/
def isOutOfBoundsError {α : Type} : Except GridError α → Bool
  | .error .outOfBounds => true
  | _ => false

/-- The 8 neighbor offsets of a cell (`adjacentCoords` in
`globals.d.ts`). -/
def adjacentOffsets : List (Int × Int) :=
  [(-1, -1), (0, -1), (1, -1), (-1, 0), (1, 0), (-1, 1), (0, 1), (1, 1)]

/-- Behavior rule tokens of the movement grammar (`BehaviorRulesBase`
in `globals.d.ts`), restricted to the tokens whose semantics the
verified claims exercise. -/
inductive RuleToken where
  | M1
  | M2
  | SP
  | SA
  | DL
  | CL
  | XX
deriving DecidableEq

/-- Modelled from the spec: one attempt of a rule token by the
Behavior Interpreter for the pixel at `(px, py)` against the
neighbor-relative cell at offset `(dx, dy)` (spec section 4.2).
`none` means the token is not applicable and the interpreter falls
through to the next token in the list; in particular `M1` against an
occupied or out-of-bounds target is a skip, never an error. -/
def attemptToken (E : Registry) (g : Grid) (px py dx dy : Int) : RuleToken → Option Grid
  | .M1 | .M2 =>
    if outOfBounds g (px + dx) (py + dy) then none
    else match g.cells px py, g.cells (px + dx) (py + dy) with
      | some p, none =>
        some (setCell (setCell g px py none) (px + dx) (py + dy)
          (some { p with x := px + dx, y := py + dy }))
      | _, _ => none
  | .SP =>
    if outOfBounds g (px + dx) (py + dy) then none
    else match g.cells px py, g.cells (px + dx) (py + dy) with
      | some p, some q =>
        match E q.element with
        | some e =>
          if e.category = "powders" then
            some (setCell (setCell g px py (some { q with x := px, y := py }))
              (px + dx) (py + dy) (some { p with x := px + dx, y := py + dy }))
          else none
        | none => none
      | _, _ => none
  | .SA =>
    if outOfBounds g (px + dx) (py + dy) then none
    else match g.cells px py, g.cells (px + dx) (py + dy) with
      | some p, some q =>
        match E q.element with
        | some e =>
          if e.movable then
            some (setCell (setCell g px py (some { q with x := px, y := py }))
              (px + dx) (py + dy) (some { p with x := px + dx, y := py + dy }))
          else none
        | none => none
      | _, _ => none
  | .DL =>
    if outOfBounds g (px + dx) (py + dy) then none
    else match g.cells (px + dx) (py + dy) with
      | some _ => some (setCell g px py none)
      | none => none
  | .CL =>
    if outOfBounds g (px + dx) (py + dy) then none
    else match g.cells px py, g.cells (px + dx) (py + dy) with
      | some p, none =>
        some { setCell g (px + dx) (py + dy)
          (some { p with x := px + dx, y := py + dy, id := g.nextId }) with
          nextId := g.nextId + 1 }
      | _, _ => none
  | .XX => some g

/-- Modelled from the spec: the Behavior Interpreter tries the ordered
token list of one behavior-grid cell left-to-right with early exit on
the first applicable token (spec section 4.2). -/
def runTokens (E : Registry) (g : Grid) (px py dx dy : Int) : List RuleToken → Grid
  | [] => g
  | t :: ts =>
    match attemptToken E g px py dx dy t with
    | some g' => g'
    | none => runTokens E g px py dx dy ts

/-- Modelled from the spec: the Reaction Matcher's predicate of one
reaction descriptor, "a conjunction over every present field" (spec
section 4.3): candidate element names for each side, temperature within
`[tempMin, tempMax]`, charge/burning state equality, and the
probabilistic `chance` gate with uniform draw `r`. -/
def matchesReaction (d : ElementReaction) (p1 p2 : Pixel) (r : ℚ) : Bool :=
  (match d.elem1 with | none => true | some l => l.contains p1.element) &&
  (match d.elem2 with | none => true | some l => l.contains p2.element) &&
  (match d.tempMin with | none => true | some m => decide (m ≤ p1.temp)) &&
  (match d.tempMax with | none => true | some m => decide (p1.temp ≤ m)) &&
  (match d.charged with | none => true | some c => p1.charge.isSome == c) &&
  (match d.burning1 with | none => true | some b => p1.burning == b) &&
  (match d.burning2 with | none => true | some b => p2.burning == b) &&
  (match d.chance with | none => true | some c => decide (r < c))

/-- Modelled from the spec: within a matched descriptor list the
Reaction Matcher evaluates predicates in declaration order and selects
the first fully-satisfied one (spec section 4.3). -/
def firstMatch (l : List ElementReaction) (p1 p2 : Pixel) (r : ℚ) : Option ElementReaction :=
  l.find? (fun d => matchesReaction d p1 p2 r)

/-- Looks up the reaction-descriptor list registered for the ordered
element pair `(n1, n2)` in `n1`'s reaction table
(`GameElement.reactions` in `globals.d.ts`). -/
def reactionsFor (E : Registry) (n1 n2 : String) : List ElementReaction :=
  match E n1 with
  | none => []
  | some e =>
    match e.reactions.find? (fun kv => kv.1 == n2) with
    | some kv => kv.2
    | none => []

/-- Modelled from the spec: the candidate descriptor list for an
adjacent pixel pair — p1's table keyed by p2's element, then p2's table
keyed by p1's element unless the descriptor is `oneway` (spec section
4.3). -/
def reactionList (E : Registry) (p1 p2 : Pixel) : List ElementReaction :=
  reactionsFor E p1.element p2.element ++
    (reactionsFor E p2.element p1.element).filter (fun d => !d.oneway)

/-- Declarative reaction effect on the first pixel: resulting color,
temperature and charge changes (spec sections 3 and 4.3). -/
def applyEffect1 (d : ElementReaction) (p : Pixel) : Pixel :=
  { p with
    color := d.color1.getD p.color,
    temp := d.temp1.getD p.temp,
    charge := match d.charge1 with | some c => some c | none => p.charge }

/-- Declarative reaction effect on the second pixel. -/
def applyEffect2 (d : ElementReaction) (p : Pixel) : Pixel :=
  { p with
    color := d.color2.getD p.color,
    temp := d.temp2.getD p.temp,
    charge := match d.charge2 with | some c => some c | none => p.charge }

/-- Applies a reaction descriptor's declarative effects to the two
cells of an adjacent pair. -/
def applyReactionAt (g : Grid) (d : ElementReaction) (x1 y1 x2 y2 : Int) : Grid :=
  modifyCell (modifyCell g x1 y1 (applyEffect1 d)) x2 y2 (applyEffect2 d)

/-- Effective conduct weight of a pixel in heat diffusion: its
element's `conduct`, with insulated elements contributing 0 (spec
section 4.4). -/
def conductOf (E : Registry) (p : Pixel) : ℚ :=
  match E p.element with
  | some e => if e.insulate then 0 else e.conduct
  | none => 0

/-- The occupied neighbor pixels of cell `(x, y)`. -/
def heatNeighbors (g : Grid) (x y : Int) : List Pixel :=
  adjacentOffsets.filterMap (fun o => g.cells (x + o.1) (y + o.2))

/-- Modelled from the spec: the weight/temperature pairs entering the
heat-diffusion update of one pixel (`doHeat` in `globals.d.ts` has no
implementation) — "new temperature = weighted average of self and
neighbor temperatures, weighted by each side's `conduct`" (spec
section 4.4).  The superconduct fast path equalizes along an edge and
is likewise a weighted average; it is not modelled separately. -/
def heatEntries (E : Registry) (g : Grid) (x y : Int) (p : Pixel) : List (ℚ × ℚ) :=
  (conductOf E p, p.temp) :: (heatNeighbors g x y).map (fun q => (conductOf E q, q.temp))

/-- The resulting temperature of one pixel after a heat pass: the
conduct-weighted average of the `heatEntries`, or the unchanged
temperature when every weight is 0. -/
def doHeatTemp (E : Registry) (g : Grid) (x y : Int) (p : Pixel) : ℚ :=
  if ((heatEntries E g x y p).map Prod.fst).sum = 0 then p.temp
  else ((heatEntries E g x y p).map (fun e => e.1 * e.2)).sum /
    ((heatEntries E g x y p).map Prod.fst).sum

/-- Modelled from the spec: one whole-grid heat diffusion pass,
computed from a snapshot and committed at once (spec section 4.4). -/
def doHeat (E : Registry) (g : Grid) : Grid :=
  { g with cells := fun x y => (g.cells x y).map (fun p => { p with temp := doHeatTemp E g x y p }) }

/-- The engine's changeTemp policy for thermal phase transitions: the
flag passed to `changePixel` when `pixelTempCheck` converts a pixel.
Modelled from the spec, which leaves the flag's value to the
`changeTemp` policy; this model preserves the current temperature. -/
def stateChangeTemp : Bool := false

/-- Default temperature of an element (its `temp` field, or 0 when the
name is unknown). -/
def defaultTempOf (E : Registry) (n : String) : ℚ :=
  match E n with
  | some e => e.temp
  | none => 0

/-- Modelled from the spec: `changePixel(pixel, element, changetemp)`
changes the element of an existing pixel in place; when `changetemp`
is set the temperature becomes the new element's default temperature
(doc comment of `changePixel` in `globals.d.ts`).  Position and
identity are untouched. -/
def changePixel (E : Registry) (p : Pixel) (element : String) (changetemp : Bool) : Pixel :=
  { p with
    element := element,
    color := match E element with | some e => e.color | none => p.color,
    temp := if changetemp then defaultTempOf E element else p.temp }

/-- Low-threshold half of the temperature check: convert to `stateLow`
when the temperature is below `tempLow`. -/
def pixelTempCheckLow (E : Registry) (e : GameElement) (p : Pixel) : Pixel :=
  match e.tempLow, e.stateLow with
  | some tl, some tgt => if p.temp < tl then changePixel E p tgt stateChangeTemp else p
  | _, _ => p

/-- Modelled from the spec: the per-pixel temperature check run after
heat diffusion (`pixelTempCheck` in `globals.d.ts` has no
implementation) — a pixel whose temperature exceeds its element's
`tempHigh` converts to the `stateHigh` element via `changePixel` with
the `stateChangeTemp` policy flag; symmetrically for `tempLow` /
`stateLow` (spec section 4.4). -/
def pixelTempCheck (E : Registry) (p : Pixel) : Pixel :=
  match E p.element with
  | none => p
  | some e =>
    match e.tempHigh, e.stateHigh with
    | some th, some tgt =>
      if th < p.temp then changePixel E p tgt stateChangeTemp else pixelTempCheckLow E e p
    | _, _ => pixelTempCheckLow E e p

/-- The whole-grid temperature-threshold check pass. -/
def gridTempCheck (E : Registry) (g : Grid) : Grid :=
  { g with cells := fun x y => (g.cells x y).map (pixelTempCheck E) }

/-- Places one released pixel of `element` at target cell `t` with a
fresh identity. -/
def releasePlace (e : GameElement) (element : String) (g : Grid) (t : Int × Int) : Grid :=
  { setCell g t.1 t.2 (some
    { id := g.nextId, x := t.1, y := t.2, element := element,
      color := e.color, temp := e.temp }) with nextId := g.nextId + 1 }

/-- Modelled from the spec and the doc comment of `releaseElement` in
`globals.d.ts` ("Releases count pixels of element around the origin",
"capped at 8"): walks the adjacent target cells, placing a new pixel in
each empty in-bounds one while the remaining budget is positive.
Returns the new grid and the list of positions where pixels were
placed.  The `replaceLiquid` option is not modelled. -/
def releaseGo (E : Registry) (element : String) :
    Nat → List (Int × Int) → Grid → Grid × List (Int × Int)
  | _, [], g => (g, [])
  | rem, t :: ts, g =>
    if rem = 0 then (g, [])
    else
      match E element with
      | none => (g, [])
      | some e =>
        if !(outOfBounds g t.1 t.2) && (g.cells t.1 t.2).isNone then
          ((releaseGo E element (rem - 1) ts (releasePlace e element g t)).1,
            t :: (releaseGo E element (rem - 1) ts (releasePlace e element g t)).2)
        else releaseGo E element rem ts g

/-- The adjacent cells of a position, in offset order. -/
def neighborsOf (a : Int × Int) : List (Int × Int) :=
  adjacentOffsets.map (fun o => (a.1 + o.1, a.2 + o.2))

/-- Releases `count` pixels of `element` around the origin pixel,
capped at 8 (`releaseElement` in `globals.d.ts`). -/
def releaseElement (E : Registry) (g : Grid) (p : Pixel) (element : String) (count : Nat) :
    Grid × List (Int × Int) :=
  releaseGo E element (min count 8) (neighborsOf (p.x, p.y)) g

/-- Modelled from the spec: the persistence snapshot — the full pixel
state of every occupied cell of the Grid Store, listed in row-major
order (spec sections 6 and 8). -/
def serializeGrid (g : Grid) : List ((Int × Int) × Pixel) :=
  (List.range g.W).flatMap (fun x : Nat =>
    (List.range g.H).filterMap (fun y : Nat =>
      (g.cells (x : Int) (y : Int)).map (fun p => (((x : Int), (y : Int)), p))))

/-- Modelled from the spec: rebuilding a Grid Store from a snapshot by
looking each cell up in the snapshot list (spec sections 6 and 8). -/
def deserializeGrid (W H nid : Nat) (l : List ((Int × Int) × Pixel)) : Grid :=
  { W := W, H := H, nextId := nid,
    cells := fun x y => (l.find? (fun e => decide (e.1 = (x, y)))).map Prod.snd }

/-- All ordered reaction invocations of one tick: for each iterated
position, the pairs against its 8 neighbors (spec section 5: the
Reaction Matcher is reached from each pixel's iteration, so an
unordered adjacent pair is reached twice, once in each order). -/
def reactionCandidates (ps : List (Int × Int)) : List ((Int × Int) × (Int × Int)) :=
  ps.flatMap (fun a => (neighborsOf a).map (fun b => (a, b)))

/-- Lexicographic order on positions, the spec's "(lower coordinate,
higher coordinate)" tie-break (spec section 5). -/
def posLex (a b : Int × Int) : Bool :=
  decide (a.1 < b.1) || (decide (a.1 = b.1) && decide (a.2 < b.2))

/-- Modelled from the spec: the invocations at which the Reaction
Matcher actually fires in one tick — both cells occupied and the pair
taken only in its lexicographically ordered orientation, so that an
unordered pair already processed this tick is not re-processed (spec
section 5). -/
def firedInvocations (g : Grid) (ps : List (Int × Int)) : List ((Int × Int) × (Int × Int)) :=
  (reactionCandidates ps).filter (fun ab =>
    posLex ab.1 ab.2 && (g.cells ab.1.1 ab.1.2).isSome && (g.cells ab.2.1 ab.2.2).isSome)

/-- First half of the grid invariant: every occupied cell's pixel has
position fields equal to its grid index (spec sections 3 and 8). -/
def posOk (g : Grid) : Prop :=
  ∀ x y p, g.cells x y = some p → p.x = x ∧ p.y = y

/-- Second half of the grid invariant: no two occupied cells reference
the same pixel identity (spec sections 3 and 8). -/
def idsInjective (g : Grid) : Prop :=
  ∀ x y x' y' p p', g.cells x y = some p → g.cells x' y' = some p' →
    p.id = p'.id → x = x' ∧ y = y'

/-- Bookkeeping invariant of the identity allocator: every live
identity is below `nextId`. -/
def idsFresh (g : Grid) : Prop :=
  ∀ x y p, g.cells x y = some p → p.id < g.nextId

/-- The grid invariant of spec section 8. -/
def GridInv (g : Grid) : Prop :=
  posOk g ∧ idsInjective g

/-- The full well-formedness invariant carried through all operations:
the grid invariant plus allocator freshness. -/
def WF (g : Grid) : Prop :=
  posOk g ∧ idsInjective g ∧ idsFresh g

/-- Every occupied cell's temperature lies in `[lo, hi]`. -/
def TempsBounded (g : Grid) (lo hi : ℚ) : Prop :=
  ∀ x y p, g.cells x y = some p → lo ≤ p.temp ∧ p.temp ≤ hi

/-- The temperatures of the pixels of a region (a list of positions),
skipping unoccupied cells. -/
def regionTemps (g : Grid) (S : List (Int × Int)) : List ℚ :=
  S.filterMap (fun t => (g.cells t.1 t.2).map Pixel.temp)

/-- Average of a list of temperatures. -/
def avgTemp (l : List ℚ) : ℚ :=
  l.sum / l.length

/-- Test fixture: the empty registry. -/
def E0 : Registry := fun _ => none

/-- Test fixture: an empty 3 × 3 grid. -/
def g0 : Grid :=
  { W := 3, H := 3, cells := fun _ _ => none, nextId := 0 }

/-- Test fixture: a pixel at `(0, 0)`. -/
def pA : Pixel :=
  { id := 0, x := 0, y := 0, element := "sand", color := "#ccb78d" }

/-- Test fixture: a pixel at `(1, 0)`. -/
def pB : Pixel :=
  { id := 1, x := 1, y := 0, element := "wall", color := "#808080" }

/-- Test fixture: a 3 × 3 grid holding `pA` at `(0, 0)` and `pB` at
`(1, 0)`. -/
def g2 : Grid :=
  { W := 3, H := 3, nextId := 2,
    cells := fun x y =>
      if x = 0 ∧ y = 0 then some pA
      else if x = 1 ∧ y = 0 then some pB
      else none }

/-- Test fixture: a water element boiling to steam at 100. -/
def eWater : GameElement :=
  { name := "water", color := "#2167ff", temp := 20,
    tempHigh := some 100, stateHigh := some "steam", conduct := 1 }

/-- Test fixture: a steam element. -/
def eSteam : GameElement :=
  { name := "steam", color := "#ffffff", temp := 110, conduct := 1 }

/-- Test fixture: a registry with water and steam. -/
def EW : Registry :=
  fun n => if n = "water" then some eWater else if n = "steam" then some eSteam else none

/-- Test fixture: an overheated water pixel at `(0, 0)`. -/
def pW : Pixel :=
  { id := 0, x := 0, y := 0, element := "water", color := "#2167ff", temp := 150 }

/-- Test fixture: a 3 × 3 grid holding the overheated water pixel. -/
def gW : Grid :=
  { W := 3, H := 3, nextId := 1,
    cells := fun x y => if x = 0 ∧ y = 0 then some pW else none }

/-- Test fixture: a low-conduct element for the heat counterexample. -/
def eC1 : GameElement :=
  { name := "a", color := "#111111", conduct := 1 }

/-- Test fixture: a high-conduct element for the heat counterexample. -/
def eC3 : GameElement :=
  { name := "b", color := "#222222", conduct := 3 }

/-- Test fixture: registry holding the two heat-counterexample
elements. -/
def E6 : Registry :=
  fun n => if n = "a" then some eC1 else if n = "b" then some eC3 else none

/-- Test fixture: a cold pixel of the low-conduct element. -/
def p6a : Pixel :=
  { id := 0, x := 0, y := 0, element := "a", color := "#111111", temp := 0 }

/-- Test fixture: a hot pixel of the high-conduct element. -/
def p6b : Pixel :=
  { id := 1, x := 1, y := 0, element := "b", color := "#222222", temp := 4 }

/-- Test fixture: a 2 × 1 grid holding the two heat-counterexample
pixels; the region's boundary is the grid border, so it is closed and
insulated. -/
def g6 : Grid :=
  { W := 2, H := 1, nextId := 2,
    cells := fun x y =>
      if x = 0 ∧ y = 0 then some p6a
      else if x = 1 ∧ y = 0 then some p6b
      else none }

/-- Test fixture: the two-cell region of the heat counterexample. -/
def S6 : List (Int × Int) := [(0, 0), (1, 0)]

/-- Test fixture: a reaction descriptor with a predicate on the first
pixel's element. -/
def dRa : ElementReaction :=
  { elem1 := some ["water"], color1 := some "#777777" }

/-- Test fixture: a reaction descriptor with an empty predicate
(always satisfied). -/
def dRb : ElementReaction :=
  { color2 := some "#888888" }

/-- Test fixture: a lava element without reactions. -/
def eLavaR : GameElement :=
  { name := "lava", color := "#ff7700" }

/-- Test fixture: a water element declaring two reactions against
lava, `dRa` before `dRb`. -/
def eWaterR : GameElement :=
  { name := "water", color := "#2167ff", reactions := [("lava", [dRa, dRb])] }

/-- Test fixture: registry for the reaction-order witness. -/
def ER : Registry :=
  fun n => if n = "water" then some eWaterR else if n = "lava" then some eLavaR else none

/-- Test fixture: a water pixel for the reaction-order witness. -/
def pR1 : Pixel :=
  { id := 0, x := 0, y := 0, element := "water", color := "#2167ff" }

/-- Test fixture: a lava pixel for the reaction-order witness. -/
def pR2 : Pixel :=
  { id := 1, x := 1, y := 0, element := "lava", color := "#ff7700" }

/-- Claim C2: for every coordinate pair outside `[0, W) × [0, H)`, the
grid query and mutation operations `getPixel`, `createPixel`,
`movePixel` and `clonePixel` all fail with the distinct OutOfBounds
error (the model of the thrown `TypeError`), never by returning the
empty/null marker or by clamping the coordinates. -/
theorem out_of_bounds_ops_fail_distinctly (E : Registry) (g : Grid) (x y : Int)
    (h : outOfBounds g x y = true) :
    getPixel g x y = .error .outOfBounds ∧
    (∀ element t, isOutOfBoundsError (createPixel E g element x y t) = true) ∧
    (∀ p, isOutOfBoundsError (movePixel g p x y) = true) ∧
    (∀ p, isOutOfBoundsError (clonePixel g p x y) = true) := by
  refine ⟨?_, ?_, ?_, ?_⟩ <;>
    simp [getPixel, createPixel, movePixel, clonePixel, isOutOfBoundsError, h]

/-- Witness for C2 at the concrete out-of-bounds coordinate
`(-1, 0)` of the empty 3 × 3 grid. -/
theorem out_of_bounds_ops_fail_distinctly_witness :
    getPixel g0 (-1) 0 = .error .outOfBounds ∧
    isOutOfBoundsError (createPixel E0 g0 "sand" (-1) 0 0) = true ∧
    isOutOfBoundsError (movePixel g0 pA (-1) 0) = true ∧
    isOutOfBoundsError (clonePixel g0 pA (-1) 0) = true := by
  have h := out_of_bounds_ops_fail_distinctly E0 g0 (-1) 0 (by decide)
  exact ⟨h.1, h.2.1 "sand" 0, h.2.2.1 pA, h.2.2.2 pA⟩

/-- Claim C9 counterexample: at the in-bounds cell `(0, 0)` of the
empty grid, `isEmpty` with `ignoreBounds = false` and `oob = true`
returns `false` although the cell is unoccupied, so an in-bounds call
does not in general return true iff the cell is unoccupied. -/
theorem isEmpty_inbounds_oob_flag_counterexample :
    ¬ (isEmpty g0 0 0 false true = (g0.cells 0 0).isNone) := by
  decide

/-- Claim C9 (amended): for every out-of-bounds coordinate pair, and
likewise whenever the `oob` flag is set, `isEmpty` returns
`ignoreBounds` independent of the grid's contents; for every in-bounds
coordinate pair with `oob = false` it returns true iff the cell is
unoccupied. -/
theorem isEmpty_spec (g : Grid) (x y : Int) (ignoreBounds oob : Bool) :
    (outOfBounds g x y = true → isEmpty g x y ignoreBounds oob = ignoreBounds) ∧
    (oob = true → isEmpty g x y ignoreBounds oob = ignoreBounds) ∧
    (outOfBounds g x y = false → oob = false →
      (isEmpty g x y ignoreBounds oob = true ↔ g.cells x y = none)) := by
  refine ⟨fun h => ?_, fun h => ?_, fun h1 h2 => ?_⟩
  · simp [isEmpty, h]
  · simp [isEmpty, h]
  · simp [isEmpty, h1, h2, Option.isNone_iff_eq_none]

/-- Witness for C9 at concrete inputs: an out-of-bounds query with
`ignoreBounds = true` returns true, and an in-bounds query of an empty
cell with `oob = false` returns true. -/
theorem isEmpty_spec_witness :
    isEmpty g0 (-1) 0 true false = true ∧ isEmpty g0 0 0 false false = true := by
  refine ⟨(isEmpty_spec g0 (-1) 0 true false).1 (by decide), ?_⟩
  exact ((isEmpty_spec g0 0 0 false false).2.2 (by decide) rfl).mpr rfl

/-- Claim C4: an `M1` movement token aimed at an occupied neighbor
cell is not applicable — the attempt leaves the whole grid (in
particular both pixels' cells and positions) unchanged, and the
interpreter falls through to the next rule token of the cell's token
list instead of raising an error. -/
theorem M1_occupied_is_skip (E : Registry) (g : Grid) (px py dx dy : Int) (q : Pixel)
    (h : g.cells (px + dx) (py + dy) = some q) (rest : List RuleToken) :
    attemptToken E g px py dx dy .M1 = none ∧
    runTokens E g px py dx dy (.M1 :: rest) = runTokens E g px py dx dy rest ∧
    runTokens E g px py dx dy [.M1] = g := by
  have ha : attemptToken E g px py dx dy .M1 = none := by
    by_cases hb : outOfBounds g (px + dx) (py + dy) = true
    · simp [attemptToken, hb]
    · rcases hc : g.cells px py with _ | p <;> simp [attemptToken, hb, h, hc]
  refine ⟨ha, ?_, ?_⟩ <;> simp [runTokens, ha]

/-- Witness for C4: in the two-pixel grid `g2`, pixel `pA` at `(0, 0)`
attempting `M1` toward the occupied cell `(1, 0)` is skipped and the
grid is unchanged. -/
theorem M1_occupied_is_skip_witness :
    attemptToken E0 g2 0 0 1 0 .M1 = none ∧ runTokens E0 g2 0 0 1 0 [.M1] = g2 := by
  have h := M1_occupied_is_skip E0 g2 0 0 1 0 pB (by decide) []
  exact ⟨h.1, h.2.2⟩

/-- Claim C7: a pixel whose temperature exceeds its element's
`tempHigh`, with a defined `stateHigh` target, is converted by the
diffusion-pass temperature check to the `stateHigh` element in the
same grid cell, with its position fields unchanged and its temperature
set according to the `stateChangeTemp` (changeTemp) policy. -/
theorem tempHigh_converts_to_stateHigh (E : Registry) (g : Grid) (x y : Int) (p : Pixel)
    (e : GameElement) (th : ℚ) (tgt : String)
    (hp : g.cells x y = some p) (he : E p.element = some e)
    (hth : e.tempHigh = some th) (hgt : th < p.temp) (hsh : e.stateHigh = some tgt) :
    (gridTempCheck E g).cells x y = some (changePixel E p tgt stateChangeTemp) ∧
    (changePixel E p tgt stateChangeTemp).element = tgt ∧
    (changePixel E p tgt stateChangeTemp).x = p.x ∧
    (changePixel E p tgt stateChangeTemp).y = p.y ∧
    (changePixel E p tgt stateChangeTemp).temp =
      (if stateChangeTemp then defaultTempOf E tgt else p.temp) := by
  refine ⟨?_, ?_, ?_, ?_, ?_⟩
  · simp [gridTempCheck, hp, pixelTempCheck, he, hth, hsh, hgt]
  · simp [changePixel]
  · simp [changePixel]
  · simp [changePixel]
  · simp [changePixel]

/-- Witness for C7: the overheated water pixel `pW` (temp 150, water
boils at 100 into steam) converts to steam in place. -/
theorem tempHigh_converts_to_stateHigh_witness :
    (gridTempCheck EW gW).cells 0 0 = some (changePixel EW pW "steam" stateChangeTemp) ∧
    (changePixel EW pW "steam" stateChangeTemp).element = "steam" ∧
    (changePixel EW pW "steam" stateChangeTemp).x = 0 ∧
    (changePixel EW pW "steam" stateChangeTemp).y = 0 ∧
    (changePixel EW pW "steam" stateChangeTemp).temp = 150 := by
  have h := tempHigh_converts_to_stateHigh EW gW 0 0 pW eWater 100 "steam"
    (by decide) (by decide) (by decide) (by norm_num [pW]) (by decide)
  exact ⟨h.1, h.2.1, h.2.2.1, h.2.2.2.1, by rw [h.2.2.2.2]; decide⟩

/-- Helper: `List.find?` returns exactly the element at the first
index whose test is satisfied, with every earlier index failing the
test. -/
theorem find?_iff_first_index {α : Type} (p : α → Bool) (d : α) :
    ∀ L : List α, L.find? p = some d ↔
      ∃ i, ∃ h : i < L.length, L.get ⟨i, h⟩ = d ∧ p d = true ∧
        ∀ j (hj : j < i), p (L.get ⟨j, Nat.lt_trans hj h⟩) = false
  | [] => by simp
  | a :: L => by
    by_cases ha : p a = true
    · rw [List.find?_cons_of_pos _ ha]
      constructor
      · rintro h
        injection h with h
        subst h
        exact ⟨0, Nat.succ_pos _, rfl, ha, fun j hj => absurd hj (Nat.not_lt_zero j)⟩
      · rintro ⟨i, h, hget, hd, hprev⟩
        cases i with
        | zero => simp only [List.get] at hget; rw [hget]
        | succ k =>
          have h0 := hprev 0 (Nat.succ_pos k)
          simp only [List.get] at h0
          rw [ha] at h0
          cases h0
    · have ha' : p a = false := by
        cases hpa : p a
        · rfl
        · exact absurd hpa ha
      rw [List.find?_cons_of_neg _ (by simp [ha'])]
      rw [find?_iff_first_index p d L]
      constructor
      · rintro ⟨i, h, hget, hd, hprev⟩
        refine ⟨i + 1, Nat.succ_lt_succ h, hget, hd, fun j hj => ?_⟩
        cases j with
        | zero => simpa using ha'
        | succ k => exact hprev k (Nat.lt_of_succ_lt_succ hj)
      · rintro ⟨i, h, hget, hd, hprev⟩
        cases i with
        | zero =>
          simp only [List.get] at hget
          subst hget
          exact absurd hd ha
        | succ k =>
          refine ⟨k, Nat.lt_of_succ_lt_succ h, hget, hd, fun j hj => ?_⟩
          exact hprev (j + 1) (Nat.succ_lt_succ hj)

/-- Claim C5: for an adjacent pixel pair, the Reaction Matcher's
lookup over the pair's registered descriptor list selects a descriptor
iff it is the first one, in declaration order, whose predicate (the
conjunction of all present match fields, including the chance gate at
draw `r`) is fully satisfied; every earlier-declared descriptor's
predicate fails, so no later or more specific descriptor is preferred
over an earlier match. -/
theorem reaction_first_match_in_declaration_order (E : Registry) (p1 p2 : Pixel) (r : ℚ)
    (d : ElementReaction) :
    firstMatch (reactionList E p1 p2) p1 p2 r = some d ↔
      ∃ i, ∃ h : i < (reactionList E p1 p2).length,
        (reactionList E p1 p2).get ⟨i, h⟩ = d ∧
        matchesReaction d p1 p2 r = true ∧
        ∀ j (hj : j < i),
          matchesReaction ((reactionList E p1 p2).get ⟨j, Nat.lt_trans hj h⟩) p1 p2 r = false :=
  find?_iff_first_index (fun d => matchesReaction d p1 p2 r) d (reactionList E p1 p2)

/-- Witness for C5: with two descriptors registered for water against
lava, the matcher selects the first declared one, `dRa`. -/
theorem reaction_first_match_in_declaration_order_witness :
    firstMatch (reactionList ER pR1 pR2) pR1 pR2 0 = some dRa :=
  (reaction_first_match_in_declaration_order ER pR1 pR2 0 dRa).mpr
    ⟨0, by decide, by decide, by decide, fun j hj => absurd hj (Nat.not_lt_zero j)⟩

/-- Helper: `releaseGo` places at most `rem` pixels. -/
theorem releaseGo_length (E : Registry) (element : String) :
    ∀ (ts : List (Int × Int)) (rem : Nat) (g : Grid),
      ((releaseGo E element rem ts g).2).length ≤ rem
  | [], rem, g => by simp [releaseGo]
  | t :: ts, rem, g => by
    simp only [releaseGo]
    split
    · simp
    · split
      · simp
      · rename_i e heq
        split
        · have ih := releaseGo_length E element ts (rem - 1) (releasePlace e element g t)
          simp only [List.length_cons]
          omega
        · exact releaseGo_length E element ts rem g

/-- Helper: `releaseGo` places only at cells of its target list. -/
theorem releaseGo_mem (E : Registry) (element : String) :
    ∀ (ts : List (Int × Int)) (rem : Nat) (g : Grid) (q : Int × Int),
      q ∈ (releaseGo E element rem ts g).2 → q ∈ ts
  | [], rem, g, q => by simp [releaseGo]
  | t :: ts, rem, g, q => by
    simp only [releaseGo]
    split
    · simp
    · split
      · simp
      · rename_i e heq
        split
        · intro hq
          rcases List.mem_cons.mp hq with h | h
          · exact h ▸ List.mem_cons_self t ts
          · exact List.mem_cons_of_mem t
              (releaseGo_mem E element ts (rem - 1) (releasePlace e element g t) q h)
        · intro hq
          exact List.mem_cons_of_mem t (releaseGo_mem E element ts rem g q hq)

/-- Helper: `releaseGo` leaves every cell outside its target list
unchanged. -/
theorem releaseGo_cells_untouched (E : Registry) (element : String) :
    ∀ (ts : List (Int × Int)) (rem : Nat) (g : Grid) (x y : Int),
      (x, y) ∉ ts → ((releaseGo E element rem ts g).1).cells x y = g.cells x y
  | [], rem, g, x, y => by simp [releaseGo]
  | t :: ts, rem, g, x, y => by
    intro hxy
    have hne : (x, y) ≠ t := fun h => hxy (h ▸ List.mem_cons_self t ts)
    have hts : (x, y) ∉ ts := fun h => hxy (List.mem_cons_of_mem t h)
    simp only [releaseGo]
    split
    · rfl
    · split
      · rfl
      · rename_i e heq
        split
        · rw [releaseGo_cells_untouched E element ts (rem - 1) _ x y hts]
          simp only [releasePlace, setCell]
          rw [if_neg]
          intro hc
          exact hne (by cases t; simp_all)
        · exact releaseGo_cells_untouched E element ts rem g x y hts

/-- Claim C10: `releaseElement` creates at most 8 new pixels even when
`count` exceeds 8, every placed pixel sits in a cell adjacent to the
origin pixel, and no cell outside the origin's adjacency is touched. -/
theorem releaseElement_capped_and_adjacent (E : Registry) (g : Grid) (p : Pixel)
    (element : String) (count : Nat) :
    ((releaseElement E g p element count).2).length ≤ 8 ∧
    (∀ q, q ∈ (releaseElement E g p element count).2 → q ∈ neighborsOf (p.x, p.y)) ∧
    (∀ x y, (x, y) ∉ neighborsOf (p.x, p.y) →
      ((releaseElement E g p element count).1).cells x y = g.cells x y) := by
  refine ⟨?_, ?_, ?_⟩
  · exact le_trans (releaseGo_length E element (neighborsOf (p.x, p.y)) (min count 8) g)
      (min_le_right count 8)
  · exact fun q => releaseGo_mem E element (neighborsOf (p.x, p.y)) (min count 8) g q
  · exact fun x y => releaseGo_cells_untouched E element (neighborsOf (p.x, p.y)) (min count 8) g x y

/-- Witness for C10: releasing 20 pixels around `p6a` still creates at
most 8. -/
theorem releaseElement_capped_and_adjacent_witness :
    ((releaseElement E6 g6 p6a "a" 20).2).length ≤ 8 :=
  (releaseElement_capped_and_adjacent E6 g6 p6a "a" 20).1

/-- Helper: a list without duplicates holds any value at most once. -/
theorem countP_eq_value_le_one {α : Type} [DecidableEq α] (v : α) :
    ∀ l : List α, l.Nodup → l.countP (fun e => decide (e = v)) ≤ 1
  | [], _ => by simp
  | a :: l, h => by
    rcases List.nodup_cons.mp h with ⟨ha, hl⟩
    rw [List.countP_cons]
    by_cases hav : a = v
    · subst hav
      have hz : l.countP (fun e => decide (e = a)) = 0 :=
        List.countP_eq_zero.mpr (fun b hb hba => ha (by simp at hba; exact hba ▸ hb))
      simp [hz]
    · simpa [hav] using countP_eq_value_le_one v l hl

/-- Helper: the 8 neighbor cells of a position are pairwise distinct. -/
theorem neighborsOf_nodup (a : Int × Int) : (neighborsOf a).Nodup := by
  refine List.Nodup.map ?_ (by decide)
  intro o1 o2 h
  cases o1
  cases o2
  simp only [Prod.mk.injEq] at h ⊢
  omega

/-- Helper: a position absent from the iteration list contributes no
candidate pair as first component. -/
theorem reactionCandidates_countP_zero (a b : Int × Int) :
    ∀ ps : List (Int × Int), a ∉ ps →
      (reactionCandidates ps).countP (fun e => decide (e = (a, b))) = 0
  | [], _ => by simp [reactionCandidates]
  | c :: ps, h => by
    have hca : c ≠ a := fun hc => h (hc ▸ List.mem_cons_self c ps)
    have hps : a ∉ ps := fun hc => h (List.mem_cons_of_mem c hc)
    simp only [reactionCandidates, List.flatMap_cons, List.countP_append]
    rw [List.countP_map]
    have hz : (neighborsOf c).countP
        ((fun e => decide (e = (a, b))) ∘ (fun b' => (c, b'))) = 0 := by
      refine List.countP_eq_zero.mpr (fun n hn hp => ?_)
      simp only [Function.comp, decide_eq_true_eq, Prod.mk.injEq] at hp
      exact hca hp.1
    have hrest := reactionCandidates_countP_zero a b ps hps
    simp only [reactionCandidates] at hrest
    omega

/-- Helper: with a duplicate-free iteration list, each ordered pair
appears at most once among the tick's reaction invocations. -/
theorem reactionCandidates_countP_le_one (a b : Int × Int) :
    ∀ ps : List (Int × Int), ps.Nodup →
      (reactionCandidates ps).countP (fun e => decide (e = (a, b))) ≤ 1
  | [], _ => by simp [reactionCandidates]
  | c :: ps, h => by
    rcases List.nodup_cons.mp h with ⟨hc, hps⟩
    simp only [reactionCandidates, List.flatMap_cons, List.countP_append]
    by_cases hca : c = a
    · subst hca
      rw [List.countP_map]
      have hblock : (neighborsOf c).countP
          ((fun e => decide (e = (c, b))) ∘ (fun b' => (c, b'))) ≤ 1 := by
        have hcong : (neighborsOf c).countP
            ((fun e => decide (e = (c, b))) ∘ (fun b' => (c, b'))) =
            (neighborsOf c).countP (fun b' => decide (b' = b)) := by
          refine List.countP_congr (fun n hn => ?_)
          simp [Function.comp, Prod.mk.injEq]
        rw [hcong]
        exact countP_eq_value_le_one b (neighborsOf c) (neighborsOf_nodup c)
      have hrest := reactionCandidates_countP_zero c b ps hc
      simp only [reactionCandidates] at hrest
      omega
    · rw [List.countP_map]
      have hblock : (neighborsOf c).countP
          ((fun e => decide (e = (a, b))) ∘ (fun b' => (c, b'))) = 0 := by
        refine List.countP_eq_zero.mpr (fun n hn hp => ?_)
        simp only [Function.comp, decide_eq_true_eq, Prod.mk.injEq] at hp
        exact hca hp.1
      have ih := reactionCandidates_countP_le_one a b ps hps
      simp only [reactionCandidates] at ih
      omega

/-- Helper: the lexicographic tie-break is asymmetric. -/
theorem posLex_asymm {a b : Int × Int} (h : posLex a b = true) : posLex b a = false := by
  simp only [posLex, Bool.or_eq_true, Bool.and_eq_true, decide_eq_true_eq,
    Bool.or_eq_false_iff, Bool.and_eq_false_iff, decide_eq_false_iff_not] at h ⊢
  omega

/-- Helper: the lexicographic tie-break orients every pair of distinct
positions one way. -/
theorem posLex_total {a b : Int × Int} (h : a ≠ b) :
    posLex a b = true ∨ posLex b a = true := by
  cases a
  cases b
  simp only [Ne, Prod.mk.injEq, not_and] at h
  simp only [posLex, Bool.or_eq_true, Bool.and_eq_true, decide_eq_true_eq]
  omega

/-- Helper: the lexicographic tie-break never relates a position to
itself. -/
theorem posLex_irrefl (a : Int × Int) : posLex a a = false := by
  simp [posLex]

/-- Claim C3: in one tick, for every unordered pair of positions, the
Reaction Matcher fires at most once — although the candidate
enumeration reaches an adjacent pair from both pixels' iterations (in
both orders), the fired invocations contain at most one occurrence of
the pair in either orientation. -/
theorem reaction_pair_fires_at_most_once (g : Grid) (ps : List (Int × Int))
    (hnd : ps.Nodup) (a b : Int × Int) :
    (firedInvocations g ps).countP
      (fun e => decide (e = (a, b)) || decide (e = (b, a))) ≤ 1 := by
  unfold firedInvocations
  rw [List.countP_filter]
  by_cases hab : a = b
  · subst hab
    have hz : (reactionCandidates ps).countP
        (fun e => (decide (e = (a, a)) || decide (e = (a, a))) &&
          (posLex e.1 e.2 && (g.cells e.1.1 e.1.2).isSome && (g.cells e.2.1 e.2.2).isSome)) = 0 := by
      refine List.countP_eq_zero.mpr (fun e he hp => ?_)
      simp only [Bool.and_eq_true, Bool.or_eq_true, decide_eq_true_eq] at hp
      rcases hp with ⟨he1 | he1, ⟨hlex, _⟩, _⟩ <;>
        · subst he1
          rw [posLex_irrefl] at hlex
          cases hlex
    rw [hz]
    exact Nat.zero_le 1
  · rcases posLex_total hab with hl | hl
    · refine le_trans (List.countP_mono_left (fun e he hp => ?_))
        (reactionCandidates_countP_le_one a b ps hnd)
      simp only [Bool.and_eq_true, Bool.or_eq_true, decide_eq_true_eq] at hp
      rcases hp with ⟨he1 | he1, ⟨hlex, _⟩, _⟩
      · simp [he1]
      · subst he1
        rw [posLex_asymm hl] at hlex
        cases hlex
    · refine le_trans (List.countP_mono_left (fun e he hp => ?_))
        (reactionCandidates_countP_le_one b a ps hnd)
      simp only [Bool.and_eq_true, Bool.or_eq_true, decide_eq_true_eq] at hp
      rcases hp with ⟨he1 | he1, ⟨hlex, _⟩, _⟩
      · subst he1
        rw [posLex_asymm hl] at hlex
        cases hlex
      · simp [he1]

/-- Witness for C3: for the two-pixel grid `g2` iterated over the
duplicate-free position list `[(0, 0), (1, 0)]`, the adjacent pair is
fired at most once. -/
theorem reaction_pair_fires_at_most_once_witness :
    (firedInvocations g2 [(0, 0), (1, 0)]).countP
      (fun e => decide (e = ((0, 0), (1, 0))) || decide (e = ((1, 0), (0, 0)))) ≤ 1 :=
  reaction_pair_fires_at_most_once g2 [(0, 0), (1, 0)] (by decide) (0, 0) (1, 0)

/-- Helper: a serialized row holds no entry for a column absent from
its column list. -/
theorem serialize_row_find_absent (g : Grid) (m n : Nat) :
    ∀ ys : List Nat, n ∉ ys →
      ((ys.filterMap (fun y : Nat => (g.cells (m : Int) (y : Int)).map (fun p => (((m : Int), (y : Int)), p)))).find?
        (fun e => decide (e.1 = ((m : Int), (n : Int))))) = none := by
  intro ys
  induction ys with
  | nil => intro _; rfl
  | cons y' ys ih =>
    intro hn
    have hy' : y' ≠ n := fun h => hn (h ▸ List.mem_cons_self y' ys)
    have hys : n ∉ ys := fun h => hn (List.mem_cons_of_mem y' h)
    rw [List.filterMap_cons]
    rcases hc : g.cells m y' with _ | p
    · exact ih hys
    · rw [Option.map_some']
      rw [List.find?_cons_of_neg _ (by simp [hy'])]
      exact ih hys

/-- Helper: looking a present column up in a serialized row recovers
exactly that cell's content. -/
theorem serialize_row_find (g : Grid) (m n : Nat) :
    ∀ ys : List Nat, n ∈ ys → ys.Nodup →
      ((ys.filterMap (fun y : Nat => (g.cells (m : Int) (y : Int)).map (fun p => (((m : Int), (y : Int)), p)))).find?
        (fun e => decide (e.1 = ((m : Int), (n : Int))))) =
      (g.cells m n).map (fun p => (((m : Int), (n : Int)), p)) := by
  intro ys
  induction ys with
  | nil => intro h; cases h
  | cons y' ys ih =>
    intro hn hnd
    rcases List.nodup_cons.mp hnd with ⟨hy'ys, hysnd⟩
    rw [List.filterMap_cons]
    by_cases hy' : y' = n
    · subst hy'
      rcases hc : g.cells m y' with _ | p
      · rw [Option.map_none']
        rw [serialize_row_find_absent g m y' ys hy'ys]
      · rw [Option.map_some']
        rw [List.find?_cons_of_pos _ (by simp)]
    · have hmem : n ∈ ys := by
        rcases List.mem_cons.mp hn with h | h
        · exact absurd h.symm hy'
        · exact h
      rcases hc : g.cells m y' with _ | p
      · exact ih hmem hysnd
      · rw [Option.map_some']
        rw [List.find?_cons_of_neg _ (by simp [hy'])]
        exact ih hmem hysnd

/-- Helper: rows of other x-coordinates hold no entry for the looked-up
key. -/
theorem serialize_flat_find_absent (g : Grid) (m n : Nat) :
    ∀ xs : List Nat, m ∉ xs →
      ((xs.flatMap (fun x : Nat => (List.range g.H).filterMap
          (fun y : Nat => (g.cells (x : Int) (y : Int)).map (fun p => (((x : Int), (y : Int)), p))))).find?
        (fun e => decide (e.1 = ((m : Int), (n : Int))))) = none := by
  intro xs
  induction xs with
  | nil => intro _; rfl
  | cons x' xs ih =>
    intro hm
    have hx' : x' ≠ m := fun h => hm (h ▸ List.mem_cons_self x' xs)
    have hxs : m ∉ xs := fun h => hm (List.mem_cons_of_mem x' h)
    rw [List.flatMap_cons, List.find?_append]
    have hrow : ((List.range g.H).filterMap
        (fun y : Nat => (g.cells (x' : Int) (y : Int)).map (fun p => (((x' : Int), (y : Int)), p)))).find?
          (fun e => decide (e.1 = ((m : Int), (n : Int)))) = none := by
      refine List.find?_eq_none.mpr (fun e he hp => ?_)
      rcases List.mem_filterMap.mp he with ⟨y', hy', hfy⟩
      rcases hc : g.cells x' y' with _ | p
      · rw [hc] at hfy; cases hfy
      · rw [hc] at hfy
        rw [Option.map_some'] at hfy
        injection hfy with hfy
        subst hfy
        simp only [decide_eq_true_eq, Prod.mk.injEq, Int.natCast_inj] at hp
        exact hx' hp.1
    rw [hrow, ih hxs]
    rfl

/-- Helper: looking a present key up in the flattened snapshot recovers
exactly the looked-up cell's content. -/
theorem serialize_flat_find (g : Grid) (m n : Nat) (hn : n ∈ List.range g.H) :
    ∀ xs : List Nat, m ∈ xs → xs.Nodup →
      ((xs.flatMap (fun x : Nat => (List.range g.H).filterMap
          (fun y : Nat => (g.cells (x : Int) (y : Int)).map (fun p => (((x : Int), (y : Int)), p))))).find?
        (fun e => decide (e.1 = ((m : Int), (n : Int))))) =
      (g.cells m n).map (fun p => (((m : Int), (n : Int)), p)) := by
  intro xs
  induction xs with
  | nil => intro h; cases h
  | cons x' xs ih =>
    intro hm hnd
    rcases List.nodup_cons.mp hnd with ⟨hx'xs, hxsnd⟩
    rw [List.flatMap_cons, List.find?_append]
    by_cases hx' : x' = m
    · subst hx'
      rw [serialize_row_find g x' n (List.range g.H) hn (List.nodup_range _)]
      rcases hc : g.cells x' n with _ | p
      · rw [serialize_flat_find_absent g x' n xs hx'xs]
        rfl
      · rfl
    · have hmem : m ∈ xs := by
        rcases List.mem_cons.mp hm with h | h
        · exact absurd h.symm hx'
        · exact h
      have hrow : ((List.range g.H).filterMap
          (fun y : Nat => (g.cells (x' : Int) (y : Int)).map (fun p => (((x' : Int), (y : Int)), p)))).find?
            (fun e => decide (e.1 = ((m : Int), (n : Int)))) = none := by
        refine List.find?_eq_none.mpr (fun e he hp => ?_)
        rcases List.mem_filterMap.mp he with ⟨y', hy', hfy⟩
        rcases hc : g.cells x' y' with _ | p
        · rw [hc] at hfy; cases hfy
        · rw [hc] at hfy
          rw [Option.map_some'] at hfy
          injection hfy with hfy
          subst hfy
          simp only [decide_eq_true_eq, Prod.mk.injEq, Int.natCast_inj] at hp
          exact hx' hp.1
      rw [hrow]
      rw [ih hmem hxsnd]
      rcases g.cells m n with _ | p <;> rfl

/-- Claim C8: serializing the snapshot of all occupied cells' full
pixel state and deserializing it reproduces a Grid Store identical to
the original — same dimensions and identity counter, and at every
in-bounds cell the identical `Option Pixel` (hence every field of every
pixel, in particular element name, color, temperature and charge). -/
theorem serialize_deserialize_roundtrip (g : Grid) (x y : Int)
    (hx0 : 0 ≤ x) (hxW : x < (g.W : Int)) (hy0 : 0 ≤ y) (hyH : y < (g.H : Int)) :
    (deserializeGrid g.W g.H g.nextId (serializeGrid g)).cells x y = g.cells x y ∧
    (deserializeGrid g.W g.H g.nextId (serializeGrid g)).W = g.W ∧
    (deserializeGrid g.W g.H g.nextId (serializeGrid g)).H = g.H ∧
    (deserializeGrid g.W g.H g.nextId (serializeGrid g)).nextId = g.nextId := by
  refine ⟨?_, rfl, rfl, rfl⟩
  obtain ⟨m, rfl⟩ : ∃ m : Nat, (m : Int) = x := ⟨x.toNat, Int.toNat_of_nonneg hx0⟩
  obtain ⟨n, rfl⟩ : ∃ n : Nat, (n : Int) = y := ⟨y.toNat, Int.toNat_of_nonneg hy0⟩
  have hm : m ∈ List.range g.W := List.mem_range.mpr (by exact_mod_cast hxW)
  have hn : n ∈ List.range g.H := List.mem_range.mpr (by exact_mod_cast hyH)
  show ((serializeGrid g).find?
      (fun e => decide (e.1 = ((m : Int), (n : Int))))).map Prod.snd = g.cells m n
  rw [serializeGrid]
  rw [serialize_flat_find g m n hn (List.range g.W) hm (List.nodup_range _)]
  rcases g.cells m n with _ | p <;> rfl

/-- Witness for C8 at the two-pixel grid `g2` and its occupied cell
`(0, 0)`. -/
theorem serialize_deserialize_roundtrip_witness :
    (deserializeGrid g2.W g2.H g2.nextId (serializeGrid g2)).cells 0 0 = g2.cells 0 0 :=
  (serialize_deserialize_roundtrip g2 0 0 (by decide) (by decide) (by decide) (by decide)).1

/-- Helper: rewriting every occupied cell in place with a function
preserving position fields and identity preserves well-formedness. -/
theorem WF_mapCells (g : Grid) (f : Int → Int → Pixel → Pixel)
    (hf : ∀ x y p, (f x y p).x = p.x ∧ (f x y p).y = p.y ∧ (f x y p).id = p.id)
    (h : WF g) :
    WF { g with cells := fun x y => (g.cells x y).map (f x y) } := by
  obtain ⟨hpos, hinj, hfresh⟩ := h
  refine ⟨?_, ?_, ?_⟩
  · intro x y p hp
    simp only [Option.map_eq_some'] at hp
    obtain ⟨q, hq, rfl⟩ := hp
    have hq2 := hpos x y q hq
    exact ⟨(hf x y q).1.trans hq2.1, (hf x y q).2.1.trans hq2.2⟩
  · intro x y x' y' p p' hp hp' hid
    simp only [Option.map_eq_some'] at hp hp'
    obtain ⟨q, hq, rfl⟩ := hp
    obtain ⟨q', hq', rfl⟩ := hp'
    rw [(hf x y q).2.2, (hf x' y' q').2.2] at hid
    exact hinj x y x' y' q q' hq hq' hid
  · intro x y p hp
    simp only [Option.map_eq_some'] at hp
    obtain ⟨q, hq, rfl⟩ := hp
    rw [(hf x y q).2.2]
    exact hfresh x y q hq

/-- Helper: rewriting a single cell in place with a function preserving
position fields and identity preserves well-formedness. -/
theorem WF_modifyCell (g : Grid) (cx cy : Int) (f : Pixel → Pixel)
    (hf : ∀ p, (f p).x = p.x ∧ (f p).y = p.y ∧ (f p).id = p.id)
    (h : WF g) : WF (modifyCell g cx cy f) := by
  obtain ⟨hpos, hinj, hfresh⟩ := h
  have hcell : ∀ a b r, (modifyCell g cx cy f).cells a b = some r →
      ∃ q, g.cells a b = some q ∧ r.x = q.x ∧ r.y = q.y ∧ r.id = q.id := by
    intro a b r hr
    simp only [modifyCell] at hr
    split at hr
    · rw [Option.map_eq_some'] at hr
      obtain ⟨q, hq, hfq⟩ := hr
      subst hfq
      exact ⟨q, hq, (hf q).1, (hf q).2.1, (hf q).2.2⟩
    · exact ⟨r, hr, rfl, rfl, rfl⟩
  refine ⟨?_, ?_, ?_⟩
  · intro a b r hr
    obtain ⟨q, hq, hx, hy, hqid⟩ := hcell a b r hr
    have hq2 := hpos a b q hq
    exact ⟨hx.trans hq2.1, hy.trans hq2.2⟩
  · intro a b c d r r' hr hr' hrid
    obtain ⟨q, hq, _, _, hqid⟩ := hcell a b r hr
    obtain ⟨q', hq', _, _, hqid'⟩ := hcell c d r' hr'
    exact hinj a b c d q q' hq hq' (by rw [← hqid, ← hqid']; exact hrid)
  · intro a b r hr
    obtain ⟨q, hq, _, _, hqid⟩ := hcell a b r hr
    have := hfresh a b q hq
    show r.id < g.nextId
    omega

/-- Helper: inserting a pixel with matching position fields and a
fresh identity preserves well-formedness, bumping the allocator. -/
theorem WF_insert_fresh (g : Grid) (x y : Int) (q : Pixel)
    (hqx : q.x = x) (hqy : q.y = y) (hqid : q.id = g.nextId) (h : WF g) :
    WF { setCell g x y (some q) with nextId := g.nextId + 1 } := by
  obtain ⟨hpos, hinj, hfresh⟩ := h
  refine ⟨?_, ?_, ?_⟩
  · intro a b p hp
    simp only [setCell] at hp
    split at hp
    · rename_i hab
      injection hp with hp
      subst hp
      exact ⟨hqx.trans hab.1.symm, hqy.trans hab.2.symm⟩
    · exact hpos a b p hp
  · intro a b c d p p' hp hp' hid
    simp only [setCell] at hp hp'
    split at hp <;> split at hp'
    · rename_i hab hcd
      exact ⟨hab.1.trans hcd.1.symm, hab.2.trans hcd.2.symm⟩
    · rename_i hab hcd
      injection hp with hp
      subst hp
      have := hfresh c d p' hp'
      rw [hqid] at hid
      omega
    · rename_i hab hcd
      injection hp' with hp'
      subst hp'
      have := hfresh a b p hp
      rw [hqid] at hid
      omega
    · exact hinj a b c d p p' hp hp' hid
  · intro a b p hp
    simp only [setCell] at hp
    split at hp
    · injection hp with hp
      subst hp
      show q.id < g.nextId + 1
      omega
    · have := hfresh a b p hp
      show p.id < g.nextId + 1
      omega

/-- Helper: moving a live pixel to an empty cell preserves
well-formedness. -/
theorem WF_move (g : Grid) (p : Pixel) (nx ny : Int)
    (hp : g.cells p.x p.y = some p) (hempty : g.cells nx ny = none) (h : WF g) :
    WF (setCell (setCell g p.x p.y none) nx ny (some { p with x := nx, y := ny })) := by
  obtain ⟨hpos, hinj, hfresh⟩ := h
  refine ⟨?_, ?_, ?_⟩
  · intro a b r hr
    simp only [setCell] at hr
    split at hr
    · rename_i hab
      injection hr with hr
      subst hr
      exact ⟨hab.1.symm, hab.2.symm⟩
    · split at hr
      · cases hr
      · exact hpos a b r hr
  · intro a b c d r r' hr hr' hid
    simp only [setCell] at hr hr'
    split at hr <;> split at hr'
    · rename_i hab hcd
      exact ⟨hab.1.trans hcd.1.symm, hab.2.trans hcd.2.symm⟩
    · rename_i hab hcd
      injection hr with hr
      subst hr
      split at hr'
      · cases hr'
      · rename_i hsrc
        have := hinj p.x p.y c d p r' hp hr' hid
        exact absurd ⟨this.1.symm, this.2.symm⟩ hsrc
    · rename_i hab hcd
      injection hr' with hr'
      subst hr'
      split at hr
      · cases hr
      · rename_i hsrc
        have := hinj a b p.x p.y r p hr hp hid
        exact absurd ⟨this.1, this.2⟩ hsrc
    · split at hr
      · cases hr
      · split at hr'
        · cases hr'
        · exact hinj a b c d r r' hr hr' hid
  · intro a b r hr
    simp only [setCell] at hr
    split at hr
    · injection hr with hr
      subst hr
      exact hfresh p.x p.y p hp
    · split at hr
      · cases hr
      · exact hfresh a b r hr

/-- Helper: swapping two live pixels preserves well-formedness. -/
theorem WF_swap (g : Grid) (p1 p2 : Pixel)
    (h1 : g.cells p1.x p1.y = some p1) (h2 : g.cells p2.x p2.y = some p2) (h : WF g) :
    WF (swapPixels g p1 p2) := by
  obtain ⟨hpos, hinj, hfresh⟩ := h
  refine ⟨?_, ?_, ?_⟩
  · intro a b r hr
    simp only [swapPixels, setCell] at hr
    split at hr
    · rename_i hab
      injection hr with hr
      subst hr
      exact ⟨hab.1.symm, hab.2.symm⟩
    · split at hr
      · rename_i hab2
        injection hr with hr
        subst hr
        exact ⟨hab2.1.symm, hab2.2.symm⟩
      · exact hpos a b r hr
  · intro a b c d r r' hr hr' hid
    simp only [swapPixels, setCell] at hr hr'
    split at hr
    · rename_i hab
      injection hr with hr
      subst hr
      split at hr'
      · rename_i hcd
        exact ⟨hab.1.trans hcd.1.symm, hab.2.trans hcd.2.symm⟩
      · rename_i hcd
        split at hr'
        · rename_i hcd2
          injection hr' with hr'
          subst hr'
          have h12 := hinj p1.x p1.y p2.x p2.y p1 p2 h1 h2 hid
          refine ⟨?_, ?_⟩
          · rw [hab.1, hcd2.1]
            exact h12.1.symm
          · rw [hab.2, hcd2.2]
            exact h12.2.symm
        · rename_i hcd2
          have hcp := hinj c d p1.x p1.y r' p1 hr' h1 hid.symm
          exact absurd ⟨hcp.1, hcp.2⟩ hcd2
    · rename_i hab
      split at hr
      · rename_i hab2
        injection hr with hr
        subst hr
        split at hr'
        · rename_i hcd
          injection hr' with hr'
          subst hr'
          have h21 := hinj p2.x p2.y p1.x p1.y p2 p1 h2 h1 hid
          refine ⟨?_, ?_⟩
          · rw [hab2.1, hcd.1]
            exact h21.1.symm
          · rw [hab2.2, hcd.2]
            exact h21.2.symm
        · rename_i hcd
          split at hr'
          · rename_i hcd2
            exact ⟨hab2.1.trans hcd2.1.symm, hab2.2.trans hcd2.2.symm⟩
          · rename_i hcd2
            have hcp := hinj c d p2.x p2.y r' p2 hr' h2 hid.symm
            exact absurd ⟨hcp.1, hcp.2⟩ hcd
      · rename_i hab2
        split at hr'
        · rename_i hcd
          injection hr' with hr'
          subst hr'
          have hcp := hinj a b p1.x p1.y r p1 hr h1 hid
          exact absurd ⟨hcp.1, hcp.2⟩ hab2
        · rename_i hcd
          split at hr'
          · rename_i hcd2
            injection hr' with hr'
            subst hr'
            have hcp := hinj a b p2.x p2.y r p2 hr h2 hid
            exact absurd ⟨hcp.1, hcp.2⟩ hab
          · rename_i hcd2
            exact hinj a b c d r r' hr hr' hid
  · intro a b r hr
    simp only [swapPixels, setCell] at hr
    split at hr
    · injection hr with hr
      subst hr
      show p1.id < g.nextId
      exact hfresh p1.x p1.y p1 h1
    · split at hr
      · injection hr with hr
        subst hr
        show p2.id < g.nextId
        exact hfresh p2.x p2.y p2 h2
      · exact hfresh a b r hr

/-- Helper: deleting a cell preserves well-formedness. -/
theorem WF_delete (g : Grid) (x y : Int) (h : WF g) : WF (deletePixel g x y) := by
  obtain ⟨hpos, hinj, hfresh⟩ := h
  refine ⟨?_, ?_, ?_⟩
  · intro a b p hp
    simp only [deletePixel, setCell] at hp
    split at hp
    · cases hp
    · exact hpos a b p hp
  · intro a b c d p p' hp hp' hid
    simp only [deletePixel, setCell] at hp hp'
    split at hp
    · cases hp
    · split at hp'
      · cases hp'
      · exact hinj a b c d p p' hp hp' hid
  · intro a b p hp
    simp only [deletePixel, setCell] at hp
    split at hp
    · cases hp
    · exact hfresh a b p hp

/-- Helper: the temperature check never moves a pixel or changes its
identity. -/
theorem pixelTempCheck_preserves (E : Registry) (p : Pixel) :
    (pixelTempCheck E p).x = p.x ∧ (pixelTempCheck E p).y = p.y ∧
      (pixelTempCheck E p).id = p.id := by
  have hlow : ∀ e, (pixelTempCheckLow E e p).x = p.x ∧ (pixelTempCheckLow E e p).y = p.y ∧
      (pixelTempCheckLow E e p).id = p.id := by
    intro e
    rcases htl : e.tempLow with _ | tl <;> rcases hts : e.stateLow with _ | tgt <;>
      simp only [pixelTempCheckLow, htl, hts] <;>
      (try split) <;> simp [changePixel]
  rcases hE : E p.element with _ | e
  · simp [pixelTempCheck, hE]
  · rcases hth : e.tempHigh with _ | th <;> rcases hsh : e.stateHigh with _ | tgt <;>
      simp only [pixelTempCheck, hE, hth, hsh] <;>
      (try split) <;>
      first
        | simp [changePixel]
        | exact hlow e

/-- Claim C1: the grid invariant — every occupied cell's pixel has
position equal to its grid index and no two occupied cells reference
the same pixel identity — holds under well-formedness and is preserved
by every operation: create, delete, move, swap, clone, reaction-effect
application, heat diffusion and the temperature check. -/
theorem grid_invariant_preserved (E : Registry) (g : Grid) (hWF : WF g) :
    GridInv g ∧
    (∀ element x y t g', createPixel E g element x y t = .ok g' → WF g') ∧
    (∀ x y, WF (deletePixel g x y)) ∧
    (∀ p nx ny g', g.cells p.x p.y = some p → movePixel g p nx ny = .ok g' → WF g') ∧
    (∀ p1 p2, g.cells p1.x p1.y = some p1 → g.cells p2.x p2.y = some p2 →
      WF (swapPixels g p1 p2)) ∧
    (∀ p nx ny g', clonePixel g p nx ny = .ok g' → WF g') ∧
    (∀ d x1 y1 x2 y2, WF (applyReactionAt g d x1 y1 x2 y2)) ∧
    WF (doHeat E g) ∧
    WF (gridTempCheck E g) := by
  refine ⟨⟨hWF.1, hWF.2.1⟩, ?_, ?_, ?_, ?_, ?_, ?_, ?_, ?_⟩
  · intro element x y t g' h
    simp only [createPixel] at h
    split at h
    · cases h
    · split at h
      · cases h
      · split at h
        · cases h
        · injection h with h
          subst h
          exact WF_insert_fresh g x y _ rfl rfl rfl hWF
  · intro x y
    exact WF_delete g x y hWF
  · intro p nx ny g' hlive h
    simp only [movePixel] at h
    split at h
    · cases h
    · split at h
      · cases h
      · injection h with h
        subst h
        rename_i hocc
        have hempty : g.cells nx ny = none := by
          rcases hc : g.cells nx ny with _ | q
          · rfl
          · rw [hc] at hocc
            exact absurd rfl hocc
        exact WF_move g p nx ny hlive hempty hWF
  · intro p1 p2 hp1 hp2
    exact WF_swap g p1 p2 hp1 hp2 hWF
  · intro p nx ny g' h
    simp only [clonePixel] at h
    split at h
    · cases h
    · split at h
      · injection h with h
        subst h
        exact hWF
      · injection h with h
        subst h
        exact WF_insert_fresh g nx ny _ rfl rfl rfl hWF
  · intro d x1 y1 x2 y2
    exact WF_modifyCell _ x2 y2 (applyEffect2 d) (fun p => ⟨rfl, rfl, rfl⟩)
      (WF_modifyCell g x1 y1 (applyEffect1 d) (fun p => ⟨rfl, rfl, rfl⟩) hWF)
  · exact WF_mapCells g (fun x y p => { p with temp := doHeatTemp E g x y p })
      (fun x y p => ⟨rfl, rfl, rfl⟩) hWF
  · exact WF_mapCells g (fun x y p => pixelTempCheck E p)
      (fun x y p => pixelTempCheck_preserves E p) hWF

/-- Witness for C1: the empty grid is well formed; the theorem yields
the grid invariant and preservation under deletion and heat
diffusion. -/
theorem grid_invariant_preserved_witness :
    GridInv g0 ∧ WF (deletePixel g0 0 0) ∧ WF (doHeat E0 g0) := by
  have h := grid_invariant_preserved E0 g0
    ⟨fun x y p hp => by simp [g0] at hp,
     fun x y x' y' p p' hp => by simp [g0] at hp,
     fun x y p hp => by simp [g0] at hp⟩
  exact ⟨h.1, h.2.2.1 0 0, h.2.2.2.2.2.2.2.1⟩

/-- Helper: registered conduct weights are nonnegative when the
registry's conducts are. -/
theorem conductOf_nonneg (E : Registry)
    (hE : ∀ n e, E n = some e → 0 ≤ e.conduct) (p : Pixel) :
    0 ≤ conductOf E p := by
  rcases hc : E p.element with _ | e
  · simp [conductOf, hc]
  · simp only [conductOf, hc]
    split
    · exact le_refl 0
    · exact hE p.element e hc

/-- Helper: a weighted average with nonnegative weights of values in
`[lo, hi]` stays in `[lo, hi]`. -/
theorem weighted_avg_bounds (entries : List (ℚ × ℚ)) (lo hi : ℚ)
    (hw : ∀ e ∈ entries, 0 ≤ e.1)
    (hv : ∀ e ∈ entries, lo ≤ e.2 ∧ e.2 ≤ hi)
    (hden : (entries.map Prod.fst).sum ≠ 0) :
    lo ≤ (entries.map (fun e => e.1 * e.2)).sum / (entries.map Prod.fst).sum ∧
      (entries.map (fun e => e.1 * e.2)).sum / (entries.map Prod.fst).sum ≤ hi := by
  have hden0 : 0 ≤ (entries.map Prod.fst).sum := by
    refine List.sum_nonneg ?_
    intro a ha
    rcases List.mem_map.mp ha with ⟨e, he, rfl⟩
    exact hw e he
  have hdenpos : 0 < (entries.map Prod.fst).sum := lt_of_le_of_ne hden0 (Ne.symm hden)
  constructor
  · rw [le_div_iff₀ hdenpos]
    have hstep : (entries.map (fun e => e.1 * lo)).sum ≤ (entries.map (fun e => e.1 * e.2)).sum :=
      List.sum_le_sum (fun e he => mul_le_mul_of_nonneg_left (hv e he).1 (hw e he))
    calc lo * (entries.map Prod.fst).sum
        = (entries.map Prod.fst).sum * lo := mul_comm _ _
      _ = (entries.map (fun e => e.1 * lo)).sum := (List.sum_map_mul_right entries Prod.fst lo).symm
      _ ≤ (entries.map (fun e => e.1 * e.2)).sum := hstep
  · rw [div_le_iff₀ hdenpos]
    have hstep : (entries.map (fun e => e.1 * e.2)).sum ≤ (entries.map (fun e => e.1 * hi)).sum :=
      List.sum_le_sum (fun e he => mul_le_mul_of_nonneg_left (hv e he).2 (hw e he))
    calc (entries.map (fun e => e.1 * e.2)).sum
        ≤ (entries.map (fun e => e.1 * hi)).sum := hstep
      _ = (entries.map Prod.fst).sum * hi := List.sum_map_mul_right entries Prod.fst hi
      _ = hi * (entries.map Prod.fst).sum := mul_comm _ _

/-- Helper: one pixel's heat update stays within the grid's
temperature bounds. -/
theorem doHeatTemp_bounded (E : Registry) (g : Grid) (lo hi : ℚ)
    (hE : ∀ n e, E n = some e → 0 ≤ e.conduct)
    (hB : TempsBounded g lo hi) (x y : Int) (p : Pixel) (hp : g.cells x y = some p) :
    lo ≤ doHeatTemp E g x y p ∧ doHeatTemp E g x y p ≤ hi := by
  have hself := hB x y p hp
  rw [doHeatTemp]
  split
  · exact hself
  · rename_i hden
    refine weighted_avg_bounds _ lo hi ?_ ?_ hden
    · intro e he
      rcases List.mem_cons.mp he with h | h
      · rw [h]
        exact conductOf_nonneg E hE p
      · rcases List.mem_map.mp h with ⟨q, hq, rfl⟩
        exact conductOf_nonneg E hE q
    · intro e he
      rcases List.mem_cons.mp he with h | h
      · rw [h]
        exact hself
      · rcases List.mem_map.mp h with ⟨q, hq, rfl⟩
        rcases List.mem_filterMap.mp hq with ⟨o, ho, hco⟩
        exact hB _ _ q hco

/-- Helper: a heat pass preserves grid-wide temperature bounds. -/
theorem doHeat_TempsBounded (E : Registry) (g : Grid) (lo hi : ℚ)
    (hE : ∀ n e, E n = some e → 0 ≤ e.conduct) (hB : TempsBounded g lo hi) :
    TempsBounded (doHeat E g) lo hi := by
  intro x y p hp
  simp only [doHeat] at hp
  rw [Option.map_eq_some'] at hp
  obtain ⟨q, hq, rfl⟩ := hp
  show lo ≤ doHeatTemp E g x y q ∧ doHeatTemp E g x y q ≤ hi
  exact doHeatTemp_bounded E g lo hi hE hB x y q hq

/-- Helper: iterated heat passes preserve grid-wide temperature
bounds. -/
theorem doHeat_iterate_TempsBounded (E : Registry) (g : Grid) (lo hi : ℚ)
    (hE : ∀ n e, E n = some e → 0 ≤ e.conduct) (hB : TempsBounded g lo hi) :
    ∀ k, TempsBounded ((doHeat E)^[k] g) lo hi := by
  intro k
  induction k with
  | zero => simpa using hB
  | succ n ih =>
    rw [Function.iterate_succ_apply']
    exact doHeat_TempsBounded E _ lo hi hE ih

/-- Helper: two cell readers that agree on occupancy produce
temperature lists of equal length. -/
theorem filterMap_isSome_length {α β γ : Type} (f : α → Option β) (h : α → Option γ)
    (hfg : ∀ a, (f a).isSome = (h a).isSome) :
    ∀ l : List α, (l.filterMap f).length = (l.filterMap h).length
  | [] => rfl
  | a :: l => by
    rw [List.filterMap_cons, List.filterMap_cons]
    have hsome := hfg a
    rcases hf : f a with _ | b
    · rcases hh : h a with _ | c
      · exact filterMap_isSome_length f h hfg l
      · rw [hf, hh] at hsome
        cases hsome
    · rcases hh : h a with _ | c
      · rw [hf, hh] at hsome
        cases hsome
      · simp only [List.length_cons]
        rw [filterMap_isSome_length f h hfg l]

/-- Helper: a heat pass does not change which region cells are
occupied, so the region temperature list keeps its length. -/
theorem doHeat_regionTemps_length (E : Registry) (g : Grid) (S : List (Int × Int)) :
    (regionTemps (doHeat E g) S).length = (regionTemps g S).length := by
  refine filterMap_isSome_length _ _ ?_ S
  intro t
  show (((g.cells t.1 t.2).map
      (fun p => { p with temp := doHeatTemp E g t.1 t.2 p })).map Pixel.temp).isSome =
    ((g.cells t.1 t.2).map Pixel.temp).isSome
  rcases g.cells t.1 t.2 with _ | q <;> rfl

/-- Helper: every region temperature respects grid-wide bounds. -/
theorem regionTemps_mem_bounded (g : Grid) (S : List (Int × Int)) (lo hi : ℚ)
    (hB : TempsBounded g lo hi) :
    ∀ v ∈ regionTemps g S, lo ≤ v ∧ v ≤ hi := by
  intro v hv
  rcases List.mem_filterMap.mp hv with ⟨t, ht, hft⟩
  rcases hc : g.cells t.1 t.2 with _ | q
  · rw [hc] at hft
    cases hft
  · rw [hc, Option.map_some'] at hft
    injection hft with hft
    subst hft
    exact hB t.1 t.2 q hc

/-- Helper: the average of a nonempty list of values in `[lo, hi]`
lies in `[lo, hi]`. -/
theorem avgTemp_bounded (l : List ℚ) (lo hi : ℚ) (hne : l ≠ [])
    (hb : ∀ v ∈ l, lo ≤ v ∧ v ≤ hi) : lo ≤ avgTemp l ∧ avgTemp l ≤ hi := by
  have hlen : 0 < (l.length : ℚ) := by
    have h0 : 0 < l.length := List.length_pos.mpr hne
    exact_mod_cast h0
  constructor
  · rw [avgTemp, le_div_iff₀ hlen]
    have hc := List.card_nsmul_le_sum l lo (fun v hv => (hb v hv).1)
    rw [nsmul_eq_mul] at hc
    calc lo * (l.length : ℚ) = (l.length : ℚ) * lo := mul_comm _ _
      _ ≤ l.sum := hc
  · rw [avgTemp, div_le_iff₀ hlen]
    have hc := List.sum_le_card_nsmul l hi (fun v hv => (hb v hv).2)
    rw [nsmul_eq_mul] at hc
    calc l.sum ≤ (l.length : ℚ) * hi := hc
      _ = hi * (l.length : ℚ) := mul_comm _ _

/-- Claim C6 (amended): with nonnegative registered conducts, if every
occupied cell's temperature lies in `[lo, hi]`, then across any number
of repeated heat-diffusion passes every occupied temperature — and the
average temperature over any nonempty region of cells, in particular a
closed insulated one — remains within `[lo, hi]`: repeated weighted
averaging never produces unbounded growth, and temperatures (rational
in this model) are always finite.  The average is bounded but not in
general non-increasing (see the counterexample). -/
theorem heat_region_average_bounded (E : Registry) (g : Grid) (S : List (Int × Int))
    (lo hi : ℚ)
    (hE : ∀ n e, E n = some e → 0 ≤ e.conduct)
    (hB : TempsBounded g lo hi)
    (hS : regionTemps g S ≠ []) :
    ∀ k, TempsBounded ((doHeat E)^[k] g) lo hi ∧
      (lo ≤ avgTemp (regionTemps ((doHeat E)^[k] g) S) ∧
        avgTemp (regionTemps ((doHeat E)^[k] g) S) ≤ hi) := by
  have hlen : ∀ k, (regionTemps ((doHeat E)^[k] g) S).length = (regionTemps g S).length := by
    intro k
    induction k with
    | zero => rfl
    | succ n ih =>
      rw [Function.iterate_succ_apply']
      rw [doHeat_regionTemps_length E _ S]
      exact ih
  intro k
  have hbk := doHeat_iterate_TempsBounded E g lo hi hE hB k
  have hne : regionTemps ((doHeat E)^[k] g) S ≠ [] := by
    intro hnil
    apply hS
    have h0 := hlen k
    rw [hnil] at h0
    exact List.length_eq_zero.mp h0.symm
  exact ⟨hbk, avgTemp_bounded _ lo hi hne (regionTemps_mem_bounded _ S lo hi hbk)⟩

/-- Claim C6 counterexample: over the closed, insulated two-pixel
region `S6` (conducts 1 and 3, temperatures 0 and 4), one heat pass
raises the average temperature from 2 to 3, so the region average is
not non-increasing under the weighted-average heat update. -/
theorem heat_region_average_not_monotone :
    ¬ (avgTemp (regionTemps (doHeat E6 g6) S6) ≤ avgTemp (regionTemps g6 S6)) := by
  have hea : heatEntries E6 g6 0 0 p6a = [(1, 0), (3, 4)] := by decide
  have heb : heatEntries E6 g6 1 0 p6b = [(3, 4), (1, 0)] := by decide
  have ha : doHeatTemp E6 g6 0 0 p6a = 3 := by
    rw [doHeatTemp, hea]
    norm_num
  have hb : doHeatTemp E6 g6 1 0 p6b = 3 := by
    rw [doHeatTemp, heb]
    norm_num
  have hr2 : regionTemps (doHeat E6 g6) S6 = [3, 3] := by
    simp only [regionTemps, S6, List.filterMap_cons, List.filterMap_nil, doHeat]
    have hc1 : g6.cells 0 0 = some p6a := by decide
    have hc2 : g6.cells 1 0 = some p6b := by decide
    rw [hc1, hc2]
    simp [ha, hb]
  have hr1 : regionTemps g6 S6 = [0, 4] := by decide
  rw [hr1, hr2]
  norm_num [avgTemp]

/-- Witness for C6: the bounds of the amended theorem applied to the
concrete region `S6` of `g6` with `[lo, hi] = [0, 4]`, after one
pass. -/
theorem heat_region_average_bounded_witness :
    0 ≤ avgTemp (regionTemps ((doHeat E6)^[1] g6) S6) ∧
      avgTemp (regionTemps ((doHeat E6)^[1] g6) S6) ≤ 4 := by
  have hE : ∀ n e, E6 n = some e → 0 ≤ e.conduct := by
    intro n e h
    simp only [E6] at h
    split at h
    · injection h with h
      subst h
      norm_num [eC1]
    · split at h
      · injection h with h
        subst h
        norm_num [eC3]
      · cases h
  have hB : TempsBounded g6 0 4 := by
    intro x y p hp
    simp only [g6] at hp
    split at hp
    · injection hp with hp
      subst hp
      norm_num [p6a]
    · split at hp
      · injection hp with hp
        subst hp
        norm_num [p6b]
      · cases hp
  exact (heat_region_average_bounded E6 g6 S6 0 4 hE hB (by decide) 1).2

end Sandboxels
